import Mathlib

/-!
Shallow embedding of the Rust-Event-Bus core (src/core/event.rs,
src/core/event_bus.rs, src/core/subscriber.rs).

The `Event` container (`Box<dyn Any>` with `downcast_ref`) is embedded as a
dependent pair over a type-tag universe `τ` with an interpretation
`interp : τ → Type`; `get_data` compares the stored tag with the requested one,
exactly as `downcast_ref` compares `TypeId`s.

The bus is embedded parametrically: `ε` is the event/message type carried in
the queues (in the source, the dynamic `Event` container) and `σ` is the
mutable state a boxed subscriber carries behind `&mut self`.  A
`Subscriber ε σ` packages the current state together with the three stage
methods of the `Subscriber` trait: `on_before` and `on_event` take
`&mut self` and `&mut Event` (so they return a possibly-updated state and
message besides the `Result<(), String>`), `on_after` takes `&self` and
`&Event` (so it returns only the result).  A `Result<(), String>` is embedded
as `Option String` with `none` for `Ok(())` and `some msg` for `Err(msg)`.

Rust's `HashMap<String, Vec<_>>` (keys unique) is embedded as an association
list with first-match lookup; `publish` drains it in list order, one
admissible iteration order (the spec leaves cross-topic order unspecified).

`publish` is instrumented with a trace: every listener-stage invocation is
recorded as a `Call` holding the topic, the stage, the listener's position in
subscription order, the position of the message in the topic's drained queue,
the message value passed in, and the returned result.
-/

namespace RustEventBus

/-- The three callback stages of the `Subscriber` trait. -/
inductive Stage where
  | before
  | event
  | after
deriving DecidableEq, Repr

/-- One recorded listener-stage invocation made by `publish`. -/
structure Call (ε : Type) where
  topic : String
  stage : Stage
  idx : Nat
  msgIdx : Nat
  msg : ε
  result : Option String
deriving DecidableEq, Repr

/-- A boxed `dyn Subscriber`: its current state plus the three stage methods. -/
structure Subscriber (ε σ : Type) where
  state : σ
  on_before : σ → ε → Option String × σ × ε
  on_event : σ → ε → Option String × σ × ε
  on_after : σ → ε → Option String

/-- The `EventBus` struct: pending events per topic, subscribers per topic,
the never-consulted suppression list (`TypeId`s embedded as `Nat`), and the
failure-policy flag. -/
structure EventBus (ε σ : Type) where
  events : List (String × List ε)
  subscribers : List (String × List (Subscriber ε σ))
  suppress_subscribers : Option (List Nat)
  fail_on_error : Bool

variable {ε σ : Type}

/-- `HashMap::contains_key` on the association-list embedding. -/
def keyContains : List (String × α) → String → Bool
  | [], _ => false
  | p :: rest, k => if p.1 = k then true else keyContains rest k

/-- `HashMap::get` (with a default) on the association-list embedding. -/
def keyGetD : List (String × α) → String → α → α
  | [], _, d => d
  | p :: rest, k, d => if p.1 = k then p.2 else keyGetD rest k d

/-- Replace the value stored under a present key (in-place `get_mut` update). -/
def keySet : List (String × α) → String → α → List (String × α)
  | [], _, _ => []
  | p :: rest, k, v => if p.1 = k then (p.1, v) :: rest else p :: keySet rest k v

/-- Apply a function to the value stored under a present key. -/
def keyUpdate : List (String × α) → String → (α → α) → List (String × α)
  | [], _, _ => []
  | p :: rest, k, f => if p.1 = k then (p.1, f p.2) :: rest else p :: keyUpdate rest k f

/-- `EventBus::new()`: empty mappings, no suppression list, `fail_on_error`
hard-coded to `true`.  The source constructor takes no argument. -/
def EventBus.new : EventBus ε σ :=
  { events := [], subscribers := [], suppress_subscribers := none,
    fail_on_error := true }

/-- Modelled from the spec: `EventBus::new(fail_on_error: bool = true)`.  The
spec's constructor exposes the failure policy as a parameter; the source's
`EventBus::new` has no such parameter.  This definition follows the spec's
words, for comparison with `EventBus.new` above. -/
def EventBus.new_spec (fail_on_error : Bool) : EventBus ε σ :=
  { events := [], subscribers := [], suppress_subscribers := none,
    fail_on_error := fail_on_error }

/-- `EventBus::register`: append the message to the topic's queue, creating
the queue if the topic is new. -/
def EventBus.register (bus : EventBus ε σ) (event_name : String) (message : ε) :
    EventBus ε σ :=
  if keyContains bus.events event_name then
    { bus with events := keyUpdate bus.events event_name (fun ms => ms ++ [message]) }
  else
    { bus with events := bus.events ++ [(event_name, [message])] }

/-- `EventBus::subscribe_listener`: append the listener to the topic's list,
creating the list if the topic is new. -/
def EventBus.subscribe_listener (bus : EventBus ε σ) (event_name : String)
    (listener : Subscriber ε σ) : EventBus ε σ :=
  if keyContains bus.subscribers event_name then
    { bus with subscribers := keyUpdate bus.subscribers event_name (fun ls => ls ++ [listener]) }
  else
    { bus with subscribers := bus.subscribers ++ [(event_name, [listener])] }

/-- `EventBus::suppress_subscriber`: record the listener's `TypeId` (embedded
as `Nat`) in the suppression list, without duplicates. -/
def EventBus.suppress_subscriber (bus : EventBus ε σ) (type_id : Nat) :
    EventBus ε σ :=
  match bus.suppress_subscribers with
  | some subs =>
      if type_id ∈ subs then bus
      else { bus with suppress_subscribers := some (subs ++ [type_id]) }
  | none => { bus with suppress_subscribers := some [type_id] }

/-- `EventBus::clear`: discard all pending events. -/
def EventBus.clear (bus : EventBus ε σ) : EventBus ε σ :=
  { bus with events := [] }

/-- Result of running one stage loop over a topic's listeners. -/
structure StageOut (ε σ : Type) where
  trace : List (Call ε)
  listeners : List (Subscriber ε σ)
  msg : ε
  err : Option String

/-- Result of processing one message, or a topic's whole message queue. -/
structure MsgOut (ε σ : Type) where
  trace : List (Call ε)
  listeners : List (Subscriber ε σ)
  err : Option String

/-- Result of the topic loop of `publish`. -/
structure TopicsOut (ε σ : Type) where
  trace : List (Call ε)
  subscribers : List (String × List (Subscriber ε σ))
  err : Option String

/-- Result of `publish`: the returned `Result<(), String>`, the bus after the
call, and the trace of listener-stage invocations. -/
structure PublishOut (ε σ : Type) where
  result : Option String
  bus : EventBus ε σ
  trace : List (Call ε)

/-- Invoke `on_before` on a boxed listener (`&mut self`, `&mut Event`). -/
def stepBefore (sub : Subscriber ε σ) (e : ε) : Option String × Subscriber ε σ × ε :=
  match sub.on_before sub.state e with
  | (r, s2, e2) => (r, { sub with state := s2 }, e2)

/-- Invoke `on_event` on a boxed listener (`&mut self`, `&mut Event`). -/
def stepEvent (sub : Subscriber ε σ) (e : ε) : Option String × Subscriber ε σ × ε :=
  match sub.on_event sub.state e with
  | (r, s2, e2) => (r, { sub with state := s2 }, e2)

/-- Invoke `on_after` on a boxed listener (`&self`, `&Event`). -/
def stepAfter (sub : Subscriber ε σ) (e : ε) : Option String × Subscriber ε σ × ε :=
  (sub.on_after sub.state e, sub, e)

/-- One stage loop of `publish`: call `step` on each listener in subscription
order, threading the mutable message; stop at the first failure. -/
def runStage (step : Subscriber ε σ → ε → Option String × Subscriber ε σ × ε)
    (stg : Stage) (topic : String) (msgIdx : Nat) (idx : Nat)
    (listeners : List (Subscriber ε σ)) (msg : ε) : StageOut ε σ :=
  match listeners with
  | [] => ⟨[], [], msg, none⟩
  | sub :: rest =>
    match step sub msg with
    | (some err, sub2, msg2) =>
        ⟨[⟨topic, stg, idx, msgIdx, msg, some err⟩], sub2 :: rest, msg2, some err⟩
    | (none, sub2, msg2) =>
        let o := runStage step stg topic msgIdx (idx + 1) rest msg2
        ⟨⟨topic, stg, idx, msgIdx, msg, none⟩ :: o.trace, sub2 :: o.listeners,
          o.msg, o.err⟩

/-- Process one message of a topic: the `on_before` loop, then the `on_event`
loop, then the `on_after` loop, each aborted by the first failure. -/
def runMessage (topic : String) (msgIdx : Nat) (listeners : List (Subscriber ε σ))
    (msg : ε) : MsgOut ε σ :=
  let o1 := runStage stepBefore .before topic msgIdx 0 listeners msg
  match o1.err with
  | some err => ⟨o1.trace, o1.listeners, some err⟩
  | none =>
    let o2 := runStage stepEvent .event topic msgIdx 0 o1.listeners o1.msg
    match o2.err with
    | some err => ⟨o1.trace ++ o2.trace, o2.listeners, some err⟩
    | none =>
      let o3 := runStage stepAfter .after topic msgIdx 0 o2.listeners o2.msg
      ⟨o1.trace ++ o2.trace ++ o3.trace, o3.listeners, o3.err⟩

/-- The `'message_loop` of `publish` over one topic's drained queue: a stage
failure under fail-fast propagates the error; under best-effort it breaks the
loop (remaining messages of this topic are skipped) and reports no error. -/
def runMessages (fail_on_error : Bool) (topic : String) (msgIdx : Nat)
    (listeners : List (Subscriber ε σ)) (msgs : List ε) : MsgOut ε σ :=
  match msgs with
  | [] => ⟨[], listeners, none⟩
  | m :: rest =>
    let o := runMessage topic msgIdx listeners m
    match o.err with
    | some err =>
        if fail_on_error then ⟨o.trace, o.listeners, some err⟩
        else ⟨o.trace, o.listeners, none⟩
    | none =>
        let o2 := runMessages fail_on_error topic (msgIdx + 1) o.listeners rest
        ⟨o.trace ++ o2.trace, o2.listeners, o2.err⟩

/-- The topic loop of `publish` over the drained event mapping: a topic with
no subscribers is skipped (with a warning in the source); an error escaping a
topic's message loop aborts the remaining topics. -/
def runTopics (fail_on_error : Bool)
    (subs : List (String × List (Subscriber ε σ)))
    (evs : List (String × List ε)) : TopicsOut ε σ :=
  match evs with
  | [] => ⟨[], subs, none⟩
  | (topic, msgs) :: rest =>
    if keyContains subs topic then
      let o := runMessages fail_on_error topic 0 (keyGetD subs topic []) msgs
      let subs2 := keySet subs topic o.listeners
      match o.err with
      | some err => ⟨o.trace, subs2, some err⟩
      | none =>
          let o2 := runTopics fail_on_error subs2 rest
          ⟨o.trace ++ o2.trace, o2.subscribers, o2.err⟩
    else
      runTopics fail_on_error subs rest

/-- `EventBus::publish`: drain the whole event mapping (so the bus ends with
no pending events whether the call succeeds or aborts) and run the topic
loop. -/
def EventBus.publish (bus : EventBus ε σ) : PublishOut ε σ :=
  let o := runTopics bus.fail_on_error bus.subscribers bus.events
  ⟨o.err, { bus with events := [], subscribers := o.subscribers }, o.trace⟩

/-- The `Event` container: one payload whose concrete type is the
interpretation of the stored tag. -/
structure Event (τ : Type) (interp : τ → Type) where
  ty : τ
  data : interp ty

variable {τ : Type} {interp : τ → Type}

/-- `Event::new`: wrap a payload, recording its concrete type. -/
def Event.new (t : τ) (x : interp t) : Event τ interp :=
  ⟨t, x⟩

/-- `Event::get_data::<T>`: `downcast_ref` — the payload if the stored tag is
`T`, else `none`. -/
def Event.get_data [DecidableEq τ] (e : Event τ interp) (t : τ) :
    Option (interp t) :=
  if h : e.ty = t then some (h ▸ e.data) else none

/-- `Event::set_data::<T>`: replace the payload wholesale, possibly changing
the stored type. -/
def Event.set_data (e : Event τ interp) (t : τ) (y : interp t) : Event τ interp :=
  ⟨t, y⟩

/-- The order-observable part of a recorded call: topic, stage, listener
position, message position. -/
def obs (c : Call ε) : String × Stage × Nat × Nat :=
  (c.topic, c.stage, c.idx, c.msgIdx)

/-- The behavioural identity of a boxed listener: its three stage methods
(the mutable state is what dispatch may change). -/
def subShape (sub : Subscriber ε σ) :
    (σ → ε → Option String × σ × ε) × (σ → ε → Option String × σ × ε) ×
      (σ → ε → Option String) :=
  (sub.on_before, sub.on_event, sub.on_after)

/-- The topic/listener structure of a subscriber mapping: topics in order,
and per topic the listeners' behavioural identities in subscription order. -/
def subsShape (m : List (String × List (Subscriber ε σ))) :=
  m.map (fun p => (p.1, p.2.map subShape))

/-- A trace/result pair where the first failure, if any, ends the trace and is
returned: either everything succeeded and the result is `none`, or the trace
ends at a single failing call whose message is the result. -/
def StopsAtFailure (tr : List (Call ε)) (r : Option String) : Prop :=
  match r with
  | none => ∀ c ∈ tr, c.result = none
  | some err =>
      ∃ pre c, tr = pre ++ [c] ∧ c.result = some err ∧ ∀ p ∈ pre, p.result = none

/-- A trace in which any failing call is the last call. -/
def TruncAtFailure (tr : List (Call ε)) : Prop :=
  ∀ a c b, tr = a ++ c :: b → c.result ≠ none → b = []

theorem stops_append {tr1 tr2 : List (Call ε)} {r : Option String}
    (h1 : ∀ c ∈ tr1, c.result = none) (h2 : StopsAtFailure tr2 r) :
    StopsAtFailure (tr1 ++ tr2) r := by
  cases r with
  | none =>
    intro c hc
    rcases List.mem_append.1 hc with h | h
    · exact h1 c h
    · exact h2 c h
  | some err =>
    rcases h2 with ⟨pre, c, htr, hres, hpre⟩
    refine ⟨tr1 ++ pre, c, ?_, hres, ?_⟩
    · rw [htr, List.append_assoc]
    · intro p hp
      rcases List.mem_append.1 hp with h | h
      · exact h1 p h
      · exact hpre p h

theorem trunc_nil : TruncAtFailure ([] : List (Call ε)) := by
  intro a c b hab hfail
  simp at hab

theorem trunc_single {c0 : Call ε} : TruncAtFailure [c0] := by
  intro a c b hab hfail
  cases a with
  | nil =>
    injection hab with h1 h2
    exact h2.symm
  | cons x xs =>
    injection hab with h1 h2
    simp at h2

theorem trunc_append {tr1 tr2 : List (Call ε)}
    (h1 : ∀ c ∈ tr1, c.result = none) (h2 : TruncAtFailure tr2) :
    TruncAtFailure (tr1 ++ tr2) := by
  intro a c b hab hfail
  rcases List.append_eq_append_iff.1 hab with ⟨w, hw1, hw2⟩ | ⟨w, hw1, hw2⟩
  · exact h2 w c b hw2 hfail
  · cases w with
    | nil =>
      exact h2 [] c b (by simpa using hw2.symm) hfail
    | cons x xs =>
      injection hw2 with hx hxs
      subst hx
      exact absurd (h1 c (hw1 ▸ List.mem_append_right a (List.mem_cons_self c xs)))
        hfail

theorem trunc_of_stops {tr : List (Call ε)} {r : Option String}
    (h : StopsAtFailure tr r) : TruncAtFailure tr := by
  cases r with
  | none =>
    intro a c b hab hfail
    exact absurd (h c (hab ▸ List.mem_append_right a (List.mem_cons_self c b))) hfail
  | some err =>
    rcases h with ⟨pre, c0, htr, hres, hpre⟩
    subst htr
    exact trunc_append hpre trunc_single

theorem stops_cons {c : Call ε} {tr : List (Call ε)} {r : Option String}
    (hc : c.result = none) (h : StopsAtFailure tr r) :
    StopsAtFailure (c :: tr) r := by
  have h1 : ∀ p ∈ [c], p.result = none := by
    intro p hp
    simp at hp
    simp [hp, hc]
  simpa using stops_append h1 h

/-- The order observations of one full stage loop: listeners `idx`,
`idx + 1`, … for `n` listeners, at stage `stg` of message `msgIdx`. -/
def idxCalls (topic : String) (stg : Stage) (msgIdx : Nat) :
    Nat → Nat → List (String × Stage × Nat × Nat)
  | _, 0 => []
  | idx, Nat.succ n => (topic, stg, idx, msgIdx) :: idxCalls topic stg msgIdx (idx + 1) n

theorem runStage_shape (step : Subscriber ε σ → ε → Option String × Subscriber ε σ × ε)
    (stg : Stage) (topic : String) (msgIdx : Nat) :
    ∀ (listeners : List (Subscriber ε σ)) (idx : Nat) (msg : ε),
      StopsAtFailure (runStage step stg topic msgIdx idx listeners msg).trace
        (runStage step stg topic msgIdx idx listeners msg).err := by
  intro listeners
  induction listeners with
  | nil =>
    intro idx msg c hc
    simp [runStage] at hc
  | cons sub rest ih =>
    intro idx msg
    rcases h : step sub msg with ⟨r, sub2, msg2⟩
    cases r with
    | some err =>
      simp only [runStage, h]
      exact ⟨[], _, rfl, rfl, by intro p hp; cases hp⟩
    | none =>
      simp only [runStage, h]
      exact stops_cons rfl (ih (idx + 1) msg2)

theorem runStage_fields (step : Subscriber ε σ → ε → Option String × Subscriber ε σ × ε)
    (stg : Stage) (topic : String) (msgIdx : Nat) :
    ∀ (listeners : List (Subscriber ε σ)) (idx : Nat) (msg : ε),
      ∀ c ∈ (runStage step stg topic msgIdx idx listeners msg).trace,
        c.topic = topic ∧ c.stage = stg ∧ c.msgIdx = msgIdx := by
  intro listeners
  induction listeners with
  | nil =>
    intro idx msg c hc
    simp [runStage] at hc
  | cons sub rest ih =>
    intro idx msg c hc
    rcases h : step sub msg with ⟨r, sub2, msg2⟩
    cases r with
    | some err =>
      simp only [runStage, h] at hc
      simp at hc
      simp [hc]
    | none =>
      simp only [runStage, h] at hc
      simp at hc
      rcases hc with hc | hc
      · simp [hc]
      · exact ih (idx + 1) msg2 c hc

theorem runStage_shape_pres
    (step : Subscriber ε σ → ε → Option String × Subscriber ε σ × ε)
    (hstep : ∀ sub m, subShape (step sub m).2.1 = subShape sub)
    (stg : Stage) (topic : String) (msgIdx : Nat) :
    ∀ (listeners : List (Subscriber ε σ)) (idx : Nat) (msg : ε),
      (runStage step stg topic msgIdx idx listeners msg).listeners.map subShape
        = listeners.map subShape := by
  intro listeners
  induction listeners with
  | nil =>
    intro idx msg
    simp [runStage]
  | cons sub rest ih =>
    intro idx msg
    rcases h : step sub msg with ⟨r, sub2, msg2⟩
    have hsub2 : subShape sub2 = subShape sub := by
      have hh := hstep sub msg
      rw [h] at hh
      exact hh
    cases r with
    | some err =>
      simp only [runStage, h]
      simp [hsub2]
    | none =>
      simp only [runStage, h]
      simp [hsub2, ih (idx + 1) msg2]

theorem runStage_obs (step : Subscriber ε σ → ε → Option String × Subscriber ε σ × ε)
    (stg : Stage) (topic : String) (msgIdx : Nat) :
    ∀ (listeners : List (Subscriber ε σ)) (idx : Nat) (msg : ε),
      (∀ c ∈ (runStage step stg topic msgIdx idx listeners msg).trace,
          c.result = none) →
      (runStage step stg topic msgIdx idx listeners msg).trace.map obs
        = idxCalls topic stg msgIdx idx listeners.length := by
  intro listeners
  induction listeners with
  | nil =>
    intro idx msg _
    simp [runStage, idxCalls]
  | cons sub rest ih =>
    intro idx msg hsucc
    rcases h : step sub msg with ⟨r, sub2, msg2⟩
    cases r with
    | some err =>
      simp only [runStage, h] at hsucc
      have hbad := hsucc ⟨topic, stg, idx, msgIdx, msg, some err⟩ (by simp)
      simp at hbad
    | none =>
      simp only [runStage, h] at hsucc ⊢
      have hrest : ∀ c ∈ (runStage step stg topic msgIdx (idx + 1) rest msg2).trace,
          c.result = none := by
        intro c hc
        exact hsucc c (by simp [hc])
      simp [obs, idxCalls, ih (idx + 1) msg2 hrest]


theorem stepBefore_shape (sub : Subscriber ε σ) (m : ε) :
    subShape (stepBefore sub m).2.1 = subShape sub := by
  rcases h : sub.on_before sub.state m with ⟨r, s2, e2⟩
  simp [stepBefore, h, subShape]

theorem stepEvent_shape (sub : Subscriber ε σ) (m : ε) :
    subShape (stepEvent sub m).2.1 = subShape sub := by
  rcases h : sub.on_event sub.state m with ⟨r, s2, e2⟩
  simp [stepEvent, h, subShape]

theorem stepAfter_shape (sub : Subscriber ε σ) (m : ε) :
    subShape (stepAfter sub m).2.1 = subShape sub := rfl

theorem runStage_length
    (step : Subscriber ε σ → ε → Option String × Subscriber ε σ × ε)
    (hstep : ∀ sub m, subShape (step sub m).2.1 = subShape sub)
    (stg : Stage) (topic : String) (msgIdx : Nat)
    (listeners : List (Subscriber ε σ)) (idx : Nat) (msg : ε) :
    (runStage step stg topic msgIdx idx listeners msg).listeners.length
      = listeners.length := by
  have h := congrArg List.length
    (runStage_shape_pres step hstep stg topic msgIdx listeners idx msg)
  simpa using h

/-- The order observations of the full three-stage processing of one message
by `n` listeners. -/
def msgBlock (topic : String) (msgIdx n : Nat) :
    List (String × Stage × Nat × Nat) :=
  idxCalls topic .before msgIdx 0 n ++ idxCalls topic .event msgIdx 0 n
    ++ idxCalls topic .after msgIdx 0 n

theorem runMessage_shape (topic : String) (msgIdx : Nat)
    (listeners : List (Subscriber ε σ)) (msg : ε) :
    StopsAtFailure (runMessage topic msgIdx listeners msg).trace
      (runMessage topic msgIdx listeners msg).err := by
  have s1 := runStage_shape stepBefore .before topic msgIdx listeners 0 msg
  simp only [runMessage]
  cases h1 : (runStage stepBefore .before topic msgIdx 0 listeners msg).err with
  | some err =>
    rw [h1] at s1
    exact s1
  | none =>
    rw [h1] at s1
    have s2 := runStage_shape stepEvent .event topic msgIdx
      (runStage stepBefore .before topic msgIdx 0 listeners msg).listeners 0
      (runStage stepBefore .before topic msgIdx 0 listeners msg).msg
    cases h2 : (runStage stepEvent .event topic msgIdx 0
        (runStage stepBefore .before topic msgIdx 0 listeners msg).listeners
        (runStage stepBefore .before topic msgIdx 0 listeners msg).msg).err with
    | some err =>
      rw [h2] at s2
      exact stops_append s1 s2
    | none =>
      rw [h2] at s2
      have s3 := runStage_shape stepAfter .after topic msgIdx
        (runStage stepEvent .event topic msgIdx 0
          (runStage stepBefore .before topic msgIdx 0 listeners msg).listeners
          (runStage stepBefore .before topic msgIdx 0 listeners msg).msg).listeners 0
        (runStage stepEvent .event topic msgIdx 0
          (runStage stepBefore .before topic msgIdx 0 listeners msg).listeners
          (runStage stepBefore .before topic msgIdx 0 listeners msg).msg).msg
      rw [List.append_assoc]
      exact stops_append s1 (stops_append s2 s3)

/-- The `on_before` loop output of `runMessage`. -/
def msgO1 (topic : String) (msgIdx : Nat) (listeners : List (Subscriber ε σ))
    (msg : ε) : StageOut ε σ :=
  runStage stepBefore .before topic msgIdx 0 listeners msg

/-- The `on_event` loop output of `runMessage` (reached when `on_before`
succeeded for every listener). -/
def msgO2 (topic : String) (msgIdx : Nat) (listeners : List (Subscriber ε σ))
    (msg : ε) : StageOut ε σ :=
  runStage stepEvent .event topic msgIdx 0
    (msgO1 topic msgIdx listeners msg).listeners
    (msgO1 topic msgIdx listeners msg).msg

/-- The `on_after` loop output of `runMessage` (reached when the two previous
stages succeeded for every listener). -/
def msgO3 (topic : String) (msgIdx : Nat) (listeners : List (Subscriber ε σ))
    (msg : ε) : StageOut ε σ :=
  runStage stepAfter .after topic msgIdx 0
    (msgO2 topic msgIdx listeners msg).listeners
    (msgO2 topic msgIdx listeners msg).msg

theorem runMessage_eq_of_before_err {topic : String} {msgIdx : Nat}
    {listeners : List (Subscriber ε σ)} {msg : ε} {err : String}
    (h : (msgO1 topic msgIdx listeners msg).err = some err) :
    runMessage topic msgIdx listeners msg
      = ⟨(msgO1 topic msgIdx listeners msg).trace,
          (msgO1 topic msgIdx listeners msg).listeners, some err⟩ := by
  simp only [msgO1] at h ⊢
  simp only [runMessage, h]

theorem runMessage_eq_of_event_err {topic : String} {msgIdx : Nat}
    {listeners : List (Subscriber ε σ)} {msg : ε} {err : String}
    (h1 : (msgO1 topic msgIdx listeners msg).err = none)
    (h2 : (msgO2 topic msgIdx listeners msg).err = some err) :
    runMessage topic msgIdx listeners msg
      = ⟨(msgO1 topic msgIdx listeners msg).trace
            ++ (msgO2 topic msgIdx listeners msg).trace,
          (msgO2 topic msgIdx listeners msg).listeners, some err⟩ := by
  simp only [msgO1, msgO2] at h1 h2 ⊢
  simp only [runMessage, h1, h2]

theorem runMessage_eq_of_ok {topic : String} {msgIdx : Nat}
    {listeners : List (Subscriber ε σ)} {msg : ε}
    (h1 : (msgO1 topic msgIdx listeners msg).err = none)
    (h2 : (msgO2 topic msgIdx listeners msg).err = none) :
    runMessage topic msgIdx listeners msg
      = ⟨(msgO1 topic msgIdx listeners msg).trace
            ++ (msgO2 topic msgIdx listeners msg).trace
            ++ (msgO3 topic msgIdx listeners msg).trace,
          (msgO3 topic msgIdx listeners msg).listeners,
          (msgO3 topic msgIdx listeners msg).err⟩ := by
  simp only [msgO1, msgO2, msgO3] at h1 h2 ⊢
  simp only [runMessage, h1, h2]

theorem runMessage_fields (topic : String) (msgIdx : Nat)
    (listeners : List (Subscriber ε σ)) (msg : ε) :
    ∀ c ∈ (runMessage topic msgIdx listeners msg).trace,
      c.topic = topic ∧ c.msgIdx = msgIdx := by
  have f1 := runStage_fields stepBefore .before topic msgIdx listeners 0 msg
  have f2 := runStage_fields stepEvent .event topic msgIdx
    (msgO1 topic msgIdx listeners msg).listeners 0 (msgO1 topic msgIdx listeners msg).msg
  have f3 := runStage_fields stepAfter .after topic msgIdx
    (msgO2 topic msgIdx listeners msg).listeners 0 (msgO2 topic msgIdx listeners msg).msg
  intro c hc
  cases h1 : (msgO1 topic msgIdx listeners msg).err with
  | some err =>
    rw [runMessage_eq_of_before_err h1] at hc
    have := f1 c hc
    exact ⟨this.1, this.2.2⟩
  | none =>
    cases h2 : (msgO2 topic msgIdx listeners msg).err with
    | some err =>
      rw [runMessage_eq_of_event_err h1 h2] at hc
      rcases List.mem_append.1 hc with h | h
      · have := f1 c h
        exact ⟨this.1, this.2.2⟩
      · have := f2 c h
        exact ⟨this.1, this.2.2⟩
    | none =>
      rw [runMessage_eq_of_ok h1 h2] at hc
      rcases List.mem_append.1 hc with h | h
      · rcases List.mem_append.1 h with h' | h'
        · have := f1 c h'
          exact ⟨this.1, this.2.2⟩
        · have := f2 c h'
          exact ⟨this.1, this.2.2⟩
      · have := f3 c h
        exact ⟨this.1, this.2.2⟩

theorem runMessage_shape_pres (topic : String) (msgIdx : Nat)
    (listeners : List (Subscriber ε σ)) (msg : ε) :
    (runMessage topic msgIdx listeners msg).listeners.map subShape
      = listeners.map subShape := by
  have p1 := runStage_shape_pres stepBefore stepBefore_shape .before topic msgIdx
    listeners 0 msg
  have p2 := runStage_shape_pres stepEvent stepEvent_shape .event topic msgIdx
    (msgO1 topic msgIdx listeners msg).listeners 0 (msgO1 topic msgIdx listeners msg).msg
  have p3 := runStage_shape_pres stepAfter stepAfter_shape .after topic msgIdx
    (msgO2 topic msgIdx listeners msg).listeners 0 (msgO2 topic msgIdx listeners msg).msg
  cases h1 : (msgO1 topic msgIdx listeners msg).err with
  | some err =>
    rw [runMessage_eq_of_before_err h1]
    exact p1
  | none =>
    cases h2 : (msgO2 topic msgIdx listeners msg).err with
    | some err =>
      rw [runMessage_eq_of_event_err h1 h2]
      exact p2.trans p1
    | none =>
      rw [runMessage_eq_of_ok h1 h2]
      exact (p3.trans p2).trans p1

theorem runMessage_obs (topic : String) (msgIdx : Nat)
    (listeners : List (Subscriber ε σ)) (msg : ε)
    (hsucc : ∀ c ∈ (runMessage topic msgIdx listeners msg).trace, c.result = none) :
    (runMessage topic msgIdx listeners msg).trace.map obs
      = msgBlock topic msgIdx listeners.length := by
  cases h1 : (msgO1 topic msgIdx listeners msg).err with
  | some err =>
    rw [runMessage_eq_of_before_err h1] at hsucc
    have hx : StopsAtFailure (msgO1 topic msgIdx listeners msg).trace
        (msgO1 topic msgIdx listeners msg).err :=
      runStage_shape stepBefore .before topic msgIdx listeners 0 msg
    rw [h1] at hx
    rcases hx with ⟨pre, c0, htr, hres, hpre⟩
    have hc0 := hsucc c0 (by
      show c0 ∈ (msgO1 topic msgIdx listeners msg).trace
      rw [htr]
      simp)
    rw [hc0] at hres
    simp at hres
  | none =>
    cases h2 : (msgO2 topic msgIdx listeners msg).err with
    | some err =>
      rw [runMessage_eq_of_event_err h1 h2] at hsucc
      have hx : StopsAtFailure (msgO2 topic msgIdx listeners msg).trace
          (msgO2 topic msgIdx listeners msg).err :=
        runStage_shape stepEvent .event topic msgIdx
          (msgO1 topic msgIdx listeners msg).listeners 0
          (msgO1 topic msgIdx listeners msg).msg
      rw [h2] at hx
      rcases hx with ⟨pre, c0, htr, hres, hpre⟩
      have hc0 := hsucc c0 (by
        show c0 ∈ (msgO1 topic msgIdx listeners msg).trace
            ++ (msgO2 topic msgIdx listeners msg).trace
        rw [htr]
        simp)
      rw [hc0] at hres
      simp at hres
    | none =>
      rw [runMessage_eq_of_ok h1 h2] at hsucc ⊢
      have hs1 : ∀ c ∈ (msgO1 topic msgIdx listeners msg).trace, c.result = none := by
        intro c hc
        exact hsucc c (List.mem_append_left _ (List.mem_append_left _ hc))
      have hs2 : ∀ c ∈ (msgO2 topic msgIdx listeners msg).trace, c.result = none := by
        intro c hc
        exact hsucc c (List.mem_append_left _ (List.mem_append_right _ hc))
      have hs3 : ∀ c ∈ (msgO3 topic msgIdx listeners msg).trace, c.result = none := by
        intro c hc
        exact hsucc c (List.mem_append_right _ hc)
      have len1 : (msgO1 topic msgIdx listeners msg).listeners.length
          = listeners.length :=
        runStage_length stepBefore stepBefore_shape .before topic msgIdx listeners 0 msg
      have len2 : (msgO2 topic msgIdx listeners msg).listeners.length
          = listeners.length := by
        have h := runStage_length stepEvent stepEvent_shape .event topic msgIdx
          (msgO1 topic msgIdx listeners msg).listeners 0
          (msgO1 topic msgIdx listeners msg).msg
        exact h.trans len1
      have e1 : (msgO1 topic msgIdx listeners msg).trace.map obs
          = idxCalls topic .before msgIdx 0 listeners.length :=
        runStage_obs stepBefore .before topic msgIdx listeners 0 msg hs1
      have e2 : (msgO2 topic msgIdx listeners msg).trace.map obs
          = idxCalls topic .event msgIdx 0
              (msgO1 topic msgIdx listeners msg).listeners.length :=
        runStage_obs stepEvent .event topic msgIdx
          (msgO1 topic msgIdx listeners msg).listeners 0
          (msgO1 topic msgIdx listeners msg).msg hs2
      have e3 : (msgO3 topic msgIdx listeners msg).trace.map obs
          = idxCalls topic .after msgIdx 0
              (msgO2 topic msgIdx listeners msg).listeners.length :=
        runStage_obs stepAfter .after topic msgIdx
          (msgO2 topic msgIdx listeners msg).listeners 0
          (msgO2 topic msgIdx listeners msg).msg hs3
      show ((msgO1 topic msgIdx listeners msg).trace
          ++ (msgO2 topic msgIdx listeners msg).trace
          ++ (msgO3 topic msgIdx listeners msg).trace).map obs = _
      rw [List.map_append, List.map_append, e1, e2, e3, len1, len2, msgBlock]

theorem runMessage_length (topic : String) (msgIdx : Nat)
    (listeners : List (Subscriber ε σ)) (msg : ε) :
    (runMessage topic msgIdx listeners msg).listeners.length
      = listeners.length := by
  have h := congrArg List.length (runMessage_shape_pres topic msgIdx listeners msg)
  simpa using h

theorem runMessages_eq_err_true {topic : String} {msgIdx : Nat}
    {listeners : List (Subscriber ε σ)} {m : ε} {rest : List ε} {err : String}
    (h : (runMessage topic msgIdx listeners m).err = some err) :
    runMessages true topic msgIdx listeners (m :: rest)
      = ⟨(runMessage topic msgIdx listeners m).trace,
          (runMessage topic msgIdx listeners m).listeners, some err⟩ := by
  simp only [runMessages, h]
  simp

theorem runMessages_eq_err_false {topic : String} {msgIdx : Nat}
    {listeners : List (Subscriber ε σ)} {m : ε} {rest : List ε} {err : String}
    (h : (runMessage topic msgIdx listeners m).err = some err) :
    runMessages false topic msgIdx listeners (m :: rest)
      = ⟨(runMessage topic msgIdx listeners m).trace,
          (runMessage topic msgIdx listeners m).listeners, none⟩ := by
  simp only [runMessages, h]
  simp

theorem runMessages_eq_ok {fail : Bool} {topic : String} {msgIdx : Nat}
    {listeners : List (Subscriber ε σ)} {m : ε} {rest : List ε}
    (h : (runMessage topic msgIdx listeners m).err = none) :
    runMessages fail topic msgIdx listeners (m :: rest)
      = ⟨(runMessage topic msgIdx listeners m).trace
            ++ (runMessages fail topic (msgIdx + 1)
                  (runMessage topic msgIdx listeners m).listeners rest).trace,
          (runMessages fail topic (msgIdx + 1)
            (runMessage topic msgIdx listeners m).listeners rest).listeners,
          (runMessages fail topic (msgIdx + 1)
            (runMessage topic msgIdx listeners m).listeners rest).err⟩ := by
  simp only [runMessages, h]

theorem runMessages_shape_true (topic : String) :
    ∀ (msgs : List ε) (msgIdx : Nat) (listeners : List (Subscriber ε σ)),
      StopsAtFailure (runMessages true topic msgIdx listeners msgs).trace
        (runMessages true topic msgIdx listeners msgs).err := by
  intro msgs
  induction msgs with
  | nil =>
    intro msgIdx listeners c hc
    simp [runMessages] at hc
  | cons m rest ih =>
    intro msgIdx listeners
    have hm := runMessage_shape topic msgIdx listeners m
    cases h : (runMessage topic msgIdx listeners m).err with
    | some err =>
      rw [runMessages_eq_err_true h]
      rw [h] at hm
      exact hm
    | none =>
      rw [runMessages_eq_ok h]
      rw [h] at hm
      exact stops_append hm (ih (msgIdx + 1) _)

theorem runMessages_err_false (topic : String) :
    ∀ (msgs : List ε) (msgIdx : Nat) (listeners : List (Subscriber ε σ)),
      (runMessages false topic msgIdx listeners msgs).err = none := by
  intro msgs
  induction msgs with
  | nil =>
    intro msgIdx listeners
    simp [runMessages]
  | cons m rest ih =>
    intro msgIdx listeners
    cases h : (runMessage topic msgIdx listeners m).err with
    | some err =>
      rw [runMessages_eq_err_false h]
    | none =>
      rw [runMessages_eq_ok h]
      exact ih (msgIdx + 1) _

theorem runMessages_trunc (fail : Bool) (topic : String) :
    ∀ (msgs : List ε) (msgIdx : Nat) (listeners : List (Subscriber ε σ)),
      TruncAtFailure (runMessages fail topic msgIdx listeners msgs).trace := by
  intro msgs
  induction msgs with
  | nil =>
    intro msgIdx listeners
    have : (runMessages fail topic msgIdx listeners ([] : List ε)).trace = [] := by
      simp [runMessages]
    rw [this]
    exact trunc_nil
  | cons m rest ih =>
    intro msgIdx listeners
    have hm := runMessage_shape topic msgIdx listeners m
    cases h : (runMessage topic msgIdx listeners m).err with
    | some err =>
      rw [h] at hm
      cases fail with
      | true =>
        rw [runMessages_eq_err_true h]
        exact trunc_of_stops hm
      | false =>
        rw [runMessages_eq_err_false h]
        exact trunc_of_stops hm
    | none =>
      rw [runMessages_eq_ok h]
      rw [h] at hm
      exact trunc_append hm (ih (msgIdx + 1) _)

theorem runMessages_topic (fail : Bool) (topic : String) :
    ∀ (msgs : List ε) (msgIdx : Nat) (listeners : List (Subscriber ε σ)),
      ∀ c ∈ (runMessages fail topic msgIdx listeners msgs).trace,
        c.topic = topic := by
  intro msgs
  induction msgs with
  | nil =>
    intro msgIdx listeners c hc
    simp [runMessages] at hc
  | cons m rest ih =>
    intro msgIdx listeners c hc
    have hf := runMessage_fields topic msgIdx listeners m
    cases h : (runMessage topic msgIdx listeners m).err with
    | some err =>
      cases fail with
      | true =>
        rw [runMessages_eq_err_true h] at hc
        exact (hf c hc).1
      | false =>
        rw [runMessages_eq_err_false h] at hc
        exact (hf c hc).1
    | none =>
      rw [runMessages_eq_ok h] at hc
      rcases List.mem_append.1 hc with hcl | hcr
      · exact (hf c hcl).1
      · exact ih (msgIdx + 1) _ c hcr

theorem runMessages_shape_pres (fail : Bool) (topic : String) :
    ∀ (msgs : List ε) (msgIdx : Nat) (listeners : List (Subscriber ε σ)),
      (runMessages fail topic msgIdx listeners msgs).listeners.map subShape
        = listeners.map subShape := by
  intro msgs
  induction msgs with
  | nil =>
    intro msgIdx listeners
    simp [runMessages]
  | cons m rest ih =>
    intro msgIdx listeners
    have hp := runMessage_shape_pres topic msgIdx listeners m
    cases h : (runMessage topic msgIdx listeners m).err with
    | some err =>
      cases fail with
      | true =>
        rw [runMessages_eq_err_true h]
        exact hp
      | false =>
        rw [runMessages_eq_err_false h]
        exact hp
    | none =>
      rw [runMessages_eq_ok h]
      exact (ih (msgIdx + 1) _).trans hp

/-- The order observations of processing `k` messages (positions `msgIdx`,
`msgIdx + 1`, …) of one topic by `n` listeners, with no failure. -/
def canonicalMsgs (topic : String) : Nat → Nat → Nat →
    List (String × Stage × Nat × Nat)
  | _, 0, _ => []
  | msgIdx, Nat.succ k, n =>
      msgBlock topic msgIdx n ++ canonicalMsgs topic (msgIdx + 1) k n

theorem runMessages_obs (fail : Bool) (topic : String) :
    ∀ (msgs : List ε) (msgIdx : Nat) (listeners : List (Subscriber ε σ)),
      (∀ c ∈ (runMessages fail topic msgIdx listeners msgs).trace,
          c.result = none) →
      (runMessages fail topic msgIdx listeners msgs).trace.map obs
        = canonicalMsgs topic msgIdx msgs.length listeners.length := by
  intro msgs
  induction msgs with
  | nil =>
    intro msgIdx listeners _
    simp [runMessages, canonicalMsgs]
  | cons m rest ih =>
    intro msgIdx listeners hsucc
    have hm := runMessage_shape topic msgIdx listeners m
    cases h : (runMessage topic msgIdx listeners m).err with
    | some err =>
      rw [h] at hm
      rcases hm with ⟨pre, c0, htr, hres, hpre⟩
      have hc0 : c0.result = none := by
        cases fail with
        | true =>
          rw [runMessages_eq_err_true h] at hsucc
          refine hsucc c0 ?_
          show c0 ∈ (runMessage topic msgIdx listeners m).trace
          rw [htr]
          simp
        | false =>
          rw [runMessages_eq_err_false h] at hsucc
          refine hsucc c0 ?_
          show c0 ∈ (runMessage topic msgIdx listeners m).trace
          rw [htr]
          simp
      rw [hc0] at hres
      simp at hres
    | none =>
      rw [runMessages_eq_ok h] at hsucc ⊢
      have hs1 : ∀ c ∈ (runMessage topic msgIdx listeners m).trace,
          c.result = none := by
        intro c hc
        exact hsucc c (List.mem_append_left _ hc)
      have hs2 : ∀ c ∈ (runMessages fail topic (msgIdx + 1)
          (runMessage topic msgIdx listeners m).listeners rest).trace,
          c.result = none := by
        intro c hc
        exact hsucc c (List.mem_append_right _ hc)
      show ((runMessage topic msgIdx listeners m).trace
          ++ (runMessages fail topic (msgIdx + 1)
                (runMessage topic msgIdx listeners m).listeners rest).trace).map obs
          = _
      rw [List.map_append, runMessage_obs topic msgIdx listeners m hs1,
        ih (msgIdx + 1) _ hs2, runMessage_length topic msgIdx listeners m]
      simp [canonicalMsgs]

theorem runTopics_nil (fail : Bool) (subs : List (String × List (Subscriber ε σ))) :
    runTopics fail subs ([] : List (String × List ε)) = ⟨[], subs, none⟩ := by
  simp [runTopics]

theorem runTopics_eq_skip {fail : Bool} {subs : List (String × List (Subscriber ε σ))}
    {topic : String} {msgs : List ε} {rest : List (String × List ε)}
    (h : keyContains subs topic = false) :
    runTopics fail subs ((topic, msgs) :: rest) = runTopics fail subs rest := by
  simp only [runTopics, h]
  simp

theorem runTopics_eq_err {fail : Bool} {subs : List (String × List (Subscriber ε σ))}
    {topic : String} {msgs : List ε} {rest : List (String × List ε)} {err : String}
    (hc : keyContains subs topic = true)
    (he : (runMessages fail topic 0 (keyGetD subs topic []) msgs).err = some err) :
    runTopics fail subs ((topic, msgs) :: rest)
      = ⟨(runMessages fail topic 0 (keyGetD subs topic []) msgs).trace,
          keySet subs topic
            (runMessages fail topic 0 (keyGetD subs topic []) msgs).listeners,
          some err⟩ := by
  simp only [runTopics, hc, he]
  simp

theorem runTopics_eq_ok {fail : Bool} {subs : List (String × List (Subscriber ε σ))}
    {topic : String} {msgs : List ε} {rest : List (String × List ε)}
    (hc : keyContains subs topic = true)
    (he : (runMessages fail topic 0 (keyGetD subs topic []) msgs).err = none) :
    runTopics fail subs ((topic, msgs) :: rest)
      = ⟨(runMessages fail topic 0 (keyGetD subs topic []) msgs).trace
            ++ (runTopics fail
                  (keySet subs topic
                    (runMessages fail topic 0 (keyGetD subs topic []) msgs).listeners)
                  rest).trace,
          (runTopics fail
            (keySet subs topic
              (runMessages fail topic 0 (keyGetD subs topic []) msgs).listeners)
            rest).subscribers,
          (runTopics fail
            (keySet subs topic
              (runMessages fail topic 0 (keyGetD subs topic []) msgs).listeners)
            rest).err⟩ := by
  simp only [runTopics, hc, he]
  simp

theorem runTopics_shape_true :
    ∀ (evs : List (String × List ε)) (subs : List (String × List (Subscriber ε σ))),
      StopsAtFailure (runTopics true subs evs).trace (runTopics true subs evs).err := by
  intro evs
  induction evs with
  | nil =>
    intro subs c hc
    rw [runTopics_nil] at hc
    cases hc
  | cons p rest ih =>
    intro subs
    rcases p with ⟨topic, msgs⟩
    cases hc : keyContains subs topic with
    | false =>
      rw [runTopics_eq_skip hc]
      exact ih subs
    | true =>
      have hm := runMessages_shape_true topic msgs 0 (keyGetD subs topic [])
      cases he : (runMessages true topic 0 (keyGetD subs topic []) msgs).err with
      | some err =>
        rw [runTopics_eq_err hc he]
        rw [he] at hm
        exact hm
      | none =>
        rw [runTopics_eq_ok hc he]
        rw [he] at hm
        exact stops_append hm (ih _)

theorem runTopics_err_false :
    ∀ (evs : List (String × List ε)) (subs : List (String × List (Subscriber ε σ))),
      (runTopics false subs evs).err = none := by
  intro evs
  induction evs with
  | nil =>
    intro subs
    rw [runTopics_nil]
  | cons p rest ih =>
    intro subs
    rcases p with ⟨topic, msgs⟩
    cases hc : keyContains subs topic with
    | false =>
      rw [runTopics_eq_skip hc]
      exact ih subs
    | true =>
      have he := runMessages_err_false topic msgs 0 (keyGetD subs topic [])
      rw [runTopics_eq_ok hc he]
      exact ih _

theorem subsShape_keySet (t : String) (v : List (Subscriber ε σ)) :
    ∀ subs : List (String × List (Subscriber ε σ)),
      v.map subShape = (keyGetD subs t []).map subShape →
      subsShape (keySet subs t v) = subsShape subs := by
  intro subs
  induction subs with
  | nil =>
    intro _
    simp [keySet]
  | cons p rest ih =>
    intro hv
    by_cases hpt : p.1 = t
    · rw [show keySet (p :: rest) t v = (p.1, v) :: rest by simp [keySet, hpt]]
      have hget : keyGetD (p :: rest) t ([] : List (Subscriber ε σ)) = p.2 := by
        simp [keyGetD, hpt]
      rw [hget] at hv
      simp [subsShape, hv]
    · rw [show keySet (p :: rest) t v = p :: keySet rest t v by simp [keySet, hpt]]
      have hget : keyGetD (p :: rest) t ([] : List (Subscriber ε σ))
          = keyGetD rest t [] := by
        simp [keyGetD, hpt]
      rw [hget] at hv
      simp [subsShape]
      have := ih hv
      simpa [subsShape] using this

theorem runTopics_shape_pres (fail : Bool) :
    ∀ (evs : List (String × List ε)) (subs : List (String × List (Subscriber ε σ))),
      subsShape (runTopics fail subs evs).subscribers = subsShape subs := by
  intro evs
  induction evs with
  | nil =>
    intro subs
    rw [runTopics_nil]
  | cons p rest ih =>
    intro subs
    rcases p with ⟨topic, msgs⟩
    cases hc : keyContains subs topic with
    | false =>
      rw [runTopics_eq_skip hc]
      exact ih subs
    | true =>
      have hpres : (runMessages fail topic 0 (keyGetD subs topic []) msgs).listeners.map
          subShape = (keyGetD subs topic []).map subShape :=
        runMessages_shape_pres fail topic msgs 0 (keyGetD subs topic [])
      have hset := subsShape_keySet topic
        (runMessages fail topic 0 (keyGetD subs topic []) msgs).listeners subs hpres
      cases he : (runMessages fail topic 0 (keyGetD subs topic []) msgs).err with
      | some err =>
        rw [runTopics_eq_err hc he]
        exact hset
      | none =>
        rw [runTopics_eq_ok hc he]
        exact (ih _).trans hset

theorem keyContains_keySet_ne {t t2 : String} (h : t2 ≠ t) (v : α) :
    ∀ m : List (String × α), keyContains (keySet m t v) t2 = keyContains m t2 := by
  intro m
  induction m with
  | nil => simp [keySet]
  | cons p rest ih =>
    by_cases hpt : p.1 = t
    · simp [keySet, keyContains, hpt]
    · simp only [keySet, hpt, if_false]
      simp [keyContains, ih]

theorem keyGetD_keySet_ne {t t2 : String} (h : t2 ≠ t) (v : α) (d : α) :
    ∀ m : List (String × α), keyGetD (keySet m t v) t2 d = keyGetD m t2 d := by
  intro m
  induction m with
  | nil => simp [keySet]
  | cons p rest ih =>
    by_cases hpt : p.1 = t
    · have ht2 : ¬(t = t2) := fun hh => h hh.symm
      simp [keySet, keyGetD, hpt, ht2]
    · simp only [keySet, hpt, if_false]
      simp [keyGetD, ih]

/-- The trace `publish` under the best-effort policy produces, presented
topic-by-topic: each topic's contribution is computed from that topic's own
pending queue and its own listener list in the pre-publish mapping, so a
failure inside one topic leaves every other topic's processing unchanged. -/
def perTopicTrace (fail : Bool) (subs : List (String × List (Subscriber ε σ))) :
    List (String × List ε) → List (Call ε)
  | [] => []
  | (topic, msgs) :: rest =>
      (if keyContains subs topic then
        (runMessages fail topic 0 (keyGetD subs topic []) msgs).trace
      else []) ++ perTopicTrace fail subs rest

theorem perTopicTrace_keySet (fail : Bool) {t : String}
    (v : List (Subscriber ε σ)) :
    ∀ (evs : List (String × List ε)) (subs : List (String × List (Subscriber ε σ))),
      t ∉ evs.map Prod.fst →
      perTopicTrace fail (keySet subs t v) evs = perTopicTrace fail subs evs := by
  intro evs
  induction evs with
  | nil =>
    intro subs _
    rfl
  | cons p rest ih =>
    intro subs hmem
    rcases p with ⟨topic, msgs⟩
    have hne : topic ≠ t := by
      intro hh
      exact hmem (by simp [hh])
    have hrest : t ∉ rest.map Prod.fst := by
      intro hh
      exact hmem (by simp [hh])
    simp only [perTopicTrace]
    rw [keyContains_keySet_ne hne v subs, keyGetD_keySet_ne hne v [] subs, ih subs hrest]

theorem runTopics_trace_decomp :
    ∀ (evs : List (String × List ε)) (subs : List (String × List (Subscriber ε σ))),
      (evs.map Prod.fst).Nodup →
      (runTopics false subs evs).trace = perTopicTrace false subs evs := by
  intro evs
  induction evs with
  | nil =>
    intro subs _
    rw [runTopics_nil]
    rfl
  | cons p rest ih =>
    intro subs hnd
    rcases p with ⟨topic, msgs⟩
    have hnd2 : topic ∉ rest.map Prod.fst ∧ (rest.map Prod.fst).Nodup := by
      rw [List.map_cons, List.nodup_cons] at hnd
      exact hnd
    have hhead : topic ∉ rest.map Prod.fst := hnd2.1
    have hrest : (rest.map Prod.fst).Nodup := hnd2.2
    cases hc : keyContains subs topic with
    | false =>
      rw [runTopics_eq_skip hc, ih subs hrest]
      simp [perTopicTrace, hc]
    | true =>
      have he := runMessages_err_false topic msgs 0 (keyGetD subs topic [])
      rw [runTopics_eq_ok hc he]
      show (runMessages false topic 0 (keyGetD subs topic []) msgs).trace
          ++ (runTopics false
                (keySet subs topic
                  (runMessages false topic 0 (keyGetD subs topic []) msgs).listeners)
                rest).trace = _
      rw [ih _ hrest, perTopicTrace_keySet false _ rest subs hhead]
      simp [perTopicTrace, hc]

theorem perTopicTrace_topics (fail : Bool) :
    ∀ (evs : List (String × List ε)) (subs : List (String × List (Subscriber ε σ))),
      ∀ c ∈ perTopicTrace fail subs evs, c.topic ∈ evs.map Prod.fst := by
  intro evs
  induction evs with
  | nil =>
    intro subs c hc
    cases hc
  | cons p rest ih =>
    intro subs c hc
    rcases p with ⟨topic, msgs⟩
    simp only [perTopicTrace] at hc
    rcases List.mem_append.1 hc with hcl | hcr
    · cases hcon : keyContains subs topic with
      | false =>
        rw [hcon] at hcl
        simp at hcl
      | true =>
        rw [hcon] at hcl
        simp only [if_true] at hcl
        have := runMessages_topic fail topic msgs 0 (keyGetD subs topic []) c
          (by simpa using hcl)
        simp [this]
    · have := ih subs c hcr
      simp [this]

theorem perTopicTrace_after_fail (fail : Bool) :
    ∀ (evs : List (String × List ε)) (subs : List (String × List (Subscriber ε σ))),
      (evs.map Prod.fst).Nodup →
      ∀ a c b, perTopicTrace fail subs evs = a ++ c :: b → c.result ≠ none →
        ∀ c2 ∈ b, c2.topic ≠ c.topic := by
  intro evs
  induction evs with
  | nil =>
    intro subs _ a c b hab _ c2 _
    simp [perTopicTrace] at hab
  | cons p rest ih =>
    intro subs hnd a c b hab hfail c2 hc2
    rcases p with ⟨topic, msgs⟩
    have hnd2 : topic ∉ rest.map Prod.fst ∧ (rest.map Prod.fst).Nodup := by
      rw [List.map_cons, List.nodup_cons] at hnd
      exact hnd
    have hhead : topic ∉ rest.map Prod.fst := hnd2.1
    have hrest : (rest.map Prod.fst).Nodup := hnd2.2
    cases hcon : keyContains subs topic with
    | false =>
      rw [show perTopicTrace fail subs ((topic, msgs) :: rest)
          = perTopicTrace fail subs rest by simp [perTopicTrace, hcon]] at hab
      exact ih subs hrest a c b hab hfail c2 hc2
    | true =>
      rw [show perTopicTrace fail subs ((topic, msgs) :: rest)
          = (runMessages fail topic 0 (keyGetD subs topic []) msgs).trace
            ++ perTopicTrace fail subs rest by simp [perTopicTrace, hcon]] at hab
      rcases List.append_eq_append_iff.1 hab with ⟨w, hw1, hw2⟩ | ⟨w, hw1, hw2⟩
      · exact ih subs hrest w c b hw2 hfail c2 hc2
      · cases w with
        | nil =>
          exact ih subs hrest [] c b (by simpa using hw2.symm) hfail c2 hc2
        | cons c' w' =>
          injection hw2 with hx hxs
          subst hx
          have hw' : w' = [] :=
            runMessages_trunc fail topic msgs 0 (keyGetD subs topic []) a c w' hw1 hfail
          subst hw'
          have hb : b = perTopicTrace fail subs rest := by simpa using hxs
          have hctop : c.topic = topic :=
            runMessages_topic fail topic msgs 0 (keyGetD subs topic []) c
              (by rw [hw1]; simp)
          have hc2top : c2.topic ∈ rest.map Prod.fst :=
            perTopicTrace_topics fail rest subs c2 (hb ▸ hc2)
          intro heq
          rw [heq, hctop] at hc2top
          exact hhead hc2top

/-- A sequence of `register` calls for one topic, in order. -/
def regAll (bus : EventBus ε σ) (t : String) (msgs : List ε) : EventBus ε σ :=
  msgs.foldl (fun b m => b.register t m) bus

theorem register_frame (bus : EventBus ε σ) (t : String) (m : ε) :
    (bus.register t m).subscribers = bus.subscribers
      ∧ (bus.register t m).fail_on_error = bus.fail_on_error
      ∧ (bus.register t m).suppress_subscribers = bus.suppress_subscribers := by
  unfold EventBus.register
  split
  · exact ⟨rfl, rfl, rfl⟩
  · exact ⟨rfl, rfl, rfl⟩

theorem regAll_subscribers (t : String) :
    ∀ (msgs : List ε) (bus : EventBus ε σ),
      (regAll bus t msgs).subscribers = bus.subscribers := by
  intro msgs
  induction msgs with
  | nil =>
    intro bus
    rfl
  | cons m rest ih =>
    intro bus
    show (regAll (bus.register t m) t rest).subscribers = _
    rw [ih (bus.register t m), (register_frame bus t m).1]

theorem regAll_fail_on_error (t : String) :
    ∀ (msgs : List ε) (bus : EventBus ε σ),
      (regAll bus t msgs).fail_on_error = bus.fail_on_error := by
  intro msgs
  induction msgs with
  | nil =>
    intro bus
    rfl
  | cons m rest ih =>
    intro bus
    show (regAll (bus.register t m) t rest).fail_on_error = _
    rw [ih (bus.register t m), (register_frame bus t m).2.1]

theorem regAll_events_entry (t : String) :
    ∀ (msgs : List ε) (bus : EventBus ε σ) (pre : List ε),
      bus.events = [(t, pre)] →
      (regAll bus t msgs).events = [(t, pre ++ msgs)] := by
  intro msgs
  induction msgs with
  | nil =>
    intro bus pre hev
    simpa using hev
  | cons m rest ih =>
    intro bus pre hev
    show (regAll (bus.register t m) t rest).events = _
    have hstep : (bus.register t m).events = [(t, pre ++ [m])] := by
      unfold EventBus.register
      rw [hev]
      simp [keyContains, keyUpdate]
    rw [ih (bus.register t m) (pre ++ [m]) hstep]
    simp

theorem regAll_events_of_empty (t : String) (m : ε) (rest : List ε)
    (bus : EventBus ε σ) (hev : bus.events = []) :
    (regAll bus t (m :: rest)).events = [(t, m :: rest)] := by
  show (regAll (bus.register t m) t rest).events = _
  have hstep : (bus.register t m).events = [(t, [m])] := by
    unfold EventBus.register
    rw [hev]
    simp [keyContains]
  rw [regAll_events_entry t rest (bus.register t m) [m] hstep]
  simp

theorem runTopics_nil_trace (fail : Bool)
    (subs : List (String × List (Subscriber ε σ))) :
    (runTopics fail subs ([] : List (String × List ε))).trace = [] := by
  rw [runTopics_nil]

/-- C1: Under the fail-fast policy (`fail_on_error = true`), the trace of a
`publish` call and its returned result stop at the first failure: either every
recorded listener-stage invocation succeeded and `publish` returns `Ok`, or
the trace ends at the single failing stage call — so no stage of any event of
any topic runs after it — and `publish` returns `Err` with exactly that
call's failure message. -/
theorem publish_failfast_stops (bus : EventBus ε σ)
    (h : bus.fail_on_error = true) :
    StopsAtFailure (bus.publish).trace (bus.publish).result := by
  show StopsAtFailure (runTopics bus.fail_on_error bus.subscribers bus.events).trace
    (runTopics bus.fail_on_error bus.subscribers bus.events).err
  rw [h]
  exact runTopics_shape_true bus.events bus.subscribers

/-- C2: After a sequence of `register` calls for topic `t` on a bus with no
other pending events, a `publish` in which every listener stage succeeds
produces, for the listeners of `t`, exactly the canonical dispatch order:
the registered messages in FIFO order, and within each message the
`on_before`, then `on_event`, then `on_after` loops, each over the listeners
in subscription order. -/
theorem publish_fifo_per_topic (bus : EventBus ε σ) (t : String) (msgs : List ε)
    (hev : bus.events = [])
    (hsub : keyContains bus.subscribers t = true)
    (hsucc : ∀ c ∈ ((regAll bus t msgs).publish).trace, c.result = none) :
    ((regAll bus t msgs).publish).trace.map obs
      = canonicalMsgs t 0 msgs.length (keyGetD bus.subscribers t []).length := by
  cases msgs with
  | nil =>
    show (runTopics bus.fail_on_error bus.subscribers bus.events).trace.map obs = _
    rw [hev, runTopics_nil_trace]
    rfl
  | cons m rest =>
    have hBev := regAll_events_of_empty t m rest bus hev
    have hBsub := regAll_subscribers t (m :: rest) bus
    have hBfl := regAll_fail_on_error t (m :: rest) bus
    have htr : ((regAll bus t (m :: rest)).publish).trace
        = (runTopics bus.fail_on_error bus.subscribers [(t, m :: rest)]).trace := by
      show (runTopics (regAll bus t (m :: rest)).fail_on_error
          (regAll bus t (m :: rest)).subscribers
          (regAll bus t (m :: rest)).events).trace = _
      rw [hBev, hBsub, hBfl]
    rw [htr] at hsucc ⊢
    cases he : (runMessages bus.fail_on_error t 0 (keyGetD bus.subscribers t [])
        (m :: rest)).err with
    | some err =>
      cases hfl : bus.fail_on_error with
      | false =>
        rw [hfl] at he
        rw [runMessages_err_false t (m :: rest) 0 (keyGetD bus.subscribers t [])] at he
        cases he
      | true =>
        rw [hfl] at he hsucc
        have hshape := runMessages_shape_true t (m :: rest) 0 (keyGetD bus.subscribers t [])
        rw [he] at hshape
        rcases hshape with ⟨pre, c0, htr0, hres, hpre⟩
        have hmem : c0 ∈ (runTopics true bus.subscribers [(t, m :: rest)]).trace := by
          rw [runTopics_eq_err hsub he]
          show c0 ∈ (runMessages true t 0 (keyGetD bus.subscribers t []) (m :: rest)).trace
          rw [htr0]
          simp
        have hc0 := hsucc c0 hmem
        rw [hc0] at hres
        simp at hres
    | none =>
      rw [runTopics_eq_ok hsub he] at hsucc ⊢
      have hmain : ∀ c ∈ (runMessages bus.fail_on_error t 0
          (keyGetD bus.subscribers t []) (m :: rest)).trace, c.result = none := by
        intro c hc
        refine hsucc c ?_
        show c ∈ (runMessages bus.fail_on_error t 0 (keyGetD bus.subscribers t [])
            (m :: rest)).trace ++ _
        exact List.mem_append_left _ hc
      show ((runMessages bus.fail_on_error t 0 (keyGetD bus.subscribers t [])
          (m :: rest)).trace
          ++ (runTopics bus.fail_on_error
                (keySet bus.subscribers t
                  (runMessages bus.fail_on_error t 0 (keyGetD bus.subscribers t [])
                    (m :: rest)).listeners)
                []).trace).map obs = _
      rw [runTopics_nil_trace, List.append_nil]
      exact runMessages_obs bus.fail_on_error t (m :: rest) 0
        (keyGetD bus.subscribers t []) hmain

/-- C3: Under the best-effort policy (`fail_on_error = false`), `publish`
returns `Ok`; its trace is exactly the concatenation of per-topic traces,
each computed from that topic's own queue and its own listener list in the
pre-publish mapping (so a failure in one topic leaves every other topic's
processing unchanged); and after a failing stage call no further call of the
same topic occurs — the remaining queued events of that topic are skipped. -/
theorem publish_besteffort (bus : EventBus ε σ)
    (hfl : bus.fail_on_error = false)
    (hnd : (bus.events.map Prod.fst).Nodup) :
    (bus.publish).result = none
      ∧ (bus.publish).trace = perTopicTrace false bus.subscribers bus.events
      ∧ (∀ a c b, (bus.publish).trace = a ++ c :: b → c.result ≠ none →
          ∀ c2 ∈ b, c2.topic ≠ c.topic) := by
  have hres : (bus.publish).result = none := by
    show (runTopics bus.fail_on_error bus.subscribers bus.events).err = none
    rw [hfl]
    exact runTopics_err_false bus.events bus.subscribers
  have htr : (bus.publish).trace = perTopicTrace false bus.subscribers bus.events := by
    show (runTopics bus.fail_on_error bus.subscribers bus.events).trace = _
    rw [hfl]
    exact runTopics_trace_decomp bus.events bus.subscribers hnd
  refine ⟨hres, htr, ?_⟩
  intro a c b hab hfail c2 hc2
  rw [htr] at hab
  exact perTopicTrace_after_fail false bus.events bus.subscribers hnd a c b hab
    hfail c2 hc2

/-- C4 (amended): Under the best-effort policy, when some listener's
`on_before` fails for an event, that event's `on_event` and `on_after` stages
are skipped for all listeners AND all remaining queued events of the same
topic are skipped as well (`break 'message_loop` leaves the whole topic);
other topics still run and `publish` returns `Ok`.  The original claim's
"the next queued event on the same topic is still processed" is refuted by
the counterexample. -/
theorem on_before_failure_truncates_topic (bus : EventBus ε σ)
    (hfl : bus.fail_on_error = false)
    (hnd : (bus.events.map Prod.fst).Nodup)
    (a : List (Call ε)) (c : Call ε) (b : List (Call ε))
    (hab : (bus.publish).trace = a ++ c :: b)
    (hstage : c.stage = .before)
    (hfail : c.result ≠ none) :
    (bus.publish).result = none ∧ ∀ c2 ∈ b, c2.topic ≠ c.topic := by
  have hres : (bus.publish).result = none := by
    show (runTopics bus.fail_on_error bus.subscribers bus.events).err = none
    rw [hfl]
    exact runTopics_err_false bus.events bus.subscribers
  have htr : (bus.publish).trace = perTopicTrace false bus.subscribers bus.events := by
    show (runTopics bus.fail_on_error bus.subscribers bus.events).trace = _
    rw [hfl]
    exact runTopics_trace_decomp bus.events bus.subscribers hnd
  rw [htr] at hab
  exact ⟨hres, perTopicTrace_after_fail false bus.events bus.subscribers hnd a c b
    hab hfail⟩

/-- C5: `publish` drains the entire pending-event mapping up front: whatever
it returns (`Ok`, or `Err` under fail-fast), the bus it leaves behind has no
pending events for any topic, and an immediate second `publish` invokes no
listener stage at all and returns `Ok` — no registered event is ever
delivered twice. -/
theorem publish_drains_all_events (bus : EventBus ε σ) :
    ((bus.publish).bus).events = []
      ∧ (((bus.publish).bus).publish).trace = []
      ∧ (((bus.publish).bus).publish).result = none :=
  ⟨rfl, rfl, rfl⟩

/-- C6: Round-trip of the `Event` container: `new` followed by `get_data` at
the stored type returns the payload; `get_data` at any other type returns
`none`; after `set_data` at a different type, `get_data` at the old type
returns `none` and at the new type returns the new payload. -/
theorem event_data_roundtrip {τ : Type} {interp : τ → Type} [DecidableEq τ]
    (T S U : τ) (x : interp T) (y : interp U)
    (hS : S ≠ T) (hU : U ≠ T) :
    (Event.new T x).get_data T = some x
      ∧ (Event.new T x).get_data S = none
      ∧ ((Event.new T x).set_data U y).get_data T = none
      ∧ ((Event.new T x).set_data U y).get_data U = some y := by
  refine ⟨?_, ?_, ?_, ?_⟩
  · exact dif_pos rfl
  · exact dif_neg (fun hh => hS hh.symm)
  · exact dif_neg hU
  · exact dif_pos rfl

/-- C7 (counterexample): the source's `EventBus::new` takes no failure-policy
argument — it is a constant whose `fail_on_error` is `true` — whereas the
spec's constructor `new_spec` can produce a best-effort bus.  So the policy is
not configurable through the source's constructor. -/
theorem new_takes_no_policy_argument :
    (EventBus.new : EventBus Nat Nat).fail_on_error = true
      ∧ (EventBus.new_spec false : EventBus Nat Nat).fail_on_error = false :=
  ⟨rfl, rfl⟩

/-- C7 (amended): `EventBus::new` takes no parameters and always constructs
the same bus: empty mappings, no suppression list, and `fail_on_error`
hard-coded to `true`; the failure policy is a field of the bus but is not
configurable at construction time. -/
theorem new_policy_fixed_failfast (α β : Type) :
    (EventBus.new : EventBus α β).fail_on_error = true
      ∧ (EventBus.new : EventBus α β).events = []
      ∧ (EventBus.new : EventBus α β).subscribers = []
      ∧ (EventBus.new : EventBus α β).suppress_subscribers = none :=
  ⟨rfl, rfl, rfl, rfl⟩

/-- C8: `clear` empties the pending-event mapping and changes nothing else:
the subscriber mapping, the suppression list and the policy flag are exactly
as before, and a `publish` right after `clear` performs no listener-stage
invocation at all. -/
theorem clear_frame (bus : EventBus ε σ) :
    bus.clear.events = []
      ∧ bus.clear.subscribers = bus.subscribers
      ∧ bus.clear.suppress_subscribers = bus.suppress_subscribers
      ∧ bus.clear.fail_on_error = bus.fail_on_error
      ∧ ((bus.clear).publish).trace = []
      ∧ ((bus.clear).publish).result = none :=
  ⟨rfl, rfl, rfl, rfl, rfl, rfl⟩

/-- C9: the suppression list is never consulted by dispatch: a `publish` on a
bus with any `suppress_subscribers` value returns the same result, records
the same trace, and leaves the same bus (apart from the untouched suppression
field itself) as on the original bus; and `suppress_subscriber` changes
nothing but the suppression field. -/
theorem suppress_never_consulted (bus : EventBus ε σ) (l : Option (List Nat))
    (tid : Nat) :
    (({ bus with suppress_subscribers := l } : EventBus ε σ).publish).result
        = (bus.publish).result
      ∧ (({ bus with suppress_subscribers := l } : EventBus ε σ).publish).trace
          = (bus.publish).trace
      ∧ (({ bus with suppress_subscribers := l } : EventBus ε σ).publish).bus
          = { (bus.publish).bus with suppress_subscribers := l }
      ∧ (bus.suppress_subscriber tid).events = bus.events
      ∧ (bus.suppress_subscriber tid).subscribers = bus.subscribers
      ∧ (bus.suppress_subscriber tid).fail_on_error = bus.fail_on_error := by
  refine ⟨rfl, rfl, rfl, ?_⟩
  rcases bus with ⟨ev, subs, sup, fl⟩
  cases sup with
  | none => exact ⟨rfl, rfl, rfl⟩
  | some lst =>
    by_cases htid : tid ∈ lst
    · refine ⟨?_, ?_, ?_⟩ <;> simp [EventBus.suppress_subscriber, htid]
    · refine ⟨?_, ?_, ?_⟩ <;> simp [EventBus.suppress_subscriber, htid]

/-- C10: `publish` never changes the topic-to-listener mapping's structure:
after the call (whether it returned `Ok` or `Err`) the subscriber mapping has
the same topics in the same order, and per topic the same listeners — same
stage methods — in the same subscription order; dispatch only advances the
listeners' internal states. -/
theorem publish_preserves_subscribers (bus : EventBus ε σ) :
    subsShape ((bus.publish).bus.subscribers) = subsShape bus.subscribers := by
  show subsShape (runTopics bus.fail_on_error bus.subscribers bus.events).subscribers
    = subsShape bus.subscribers
  exact runTopics_shape_pres bus.fail_on_error bus.events bus.subscribers

/-- A concrete listener whose `on_before` always fails. -/
def subFailBefore : Subscriber Nat Nat :=
  { state := 0
    on_before := fun s e => (some "before boom", s, e)
    on_event := fun s e => (none, s, e)
    on_after := fun _ _ => none }

/-- A concrete listener whose `on_event` always fails. -/
def subFailEvent : Subscriber Nat Nat :=
  { state := 0
    on_before := fun s e => (none, s, e)
    on_event := fun s e => (some "event boom", s, e)
    on_after := fun _ _ => none }

/-- A concrete listener whose three stages always succeed. -/
def subOk : Subscriber Nat Nat :=
  { state := 0
    on_before := fun s e => (none, s, e)
    on_event := fun s e => (none, s, e)
    on_after := fun _ _ => none }

/-- A best-effort bus with two queued events on one topic whose only listener
fails in `on_before`. -/
def busFailBefore2 : EventBus Nat Nat :=
  { events := [("alpha", [1, 2])]
    subscribers := [("alpha", [subFailBefore])]
    suppress_subscribers := none
    fail_on_error := false }

/-- A best-effort bus with a failing topic followed by a healthy topic. -/
def busTwoTopics : EventBus Nat Nat :=
  { events := [("alpha", [1, 2]), ("beta", [3])]
    subscribers := [("alpha", [subFailBefore]), ("beta", [subOk])]
    suppress_subscribers := none
    fail_on_error := false }

/-- A fail-fast bus whose only listener fails in `on_event`. -/
def busFailFast : EventBus Nat Nat :=
  { events := [("alpha", [1])]
    subscribers := [("alpha", [subFailEvent])]
    suppress_subscribers := none
    fail_on_error := true }

/-- A bus with two healthy listeners on topic `bar` and no pending events. -/
def busTwoListeners : EventBus Nat Nat :=
  { events := []
    subscribers := [("bar", [subOk, subOk])]
    suppress_subscribers := none
    fail_on_error := true }

/-- C4 (counterexample): on `busFailBefore2` — fail-fast disabled, two events
queued on topic `alpha`, the single listener's `on_before` failing — the
whole `publish` trace is the one failing `on_before` call for the first event
(message position 0).  The second queued event (message position 1) is never
processed, refuting the claim that the next queued event on the same topic is
still processed; `publish` still returns `Ok`. -/
theorem before_failure_skips_next_event_cex :
    (busFailBefore2.publish).result = none
      ∧ (busFailBefore2.publish).trace
          = [⟨"alpha", .before, 0, 0, 1, some "before boom"⟩] := by
  constructor
  · rfl
  · rfl

/-- C1 witness: the fail-fast shape theorem applied to the concrete fail-fast
bus `busFailFast`, whose listener fails in `on_event`. -/
theorem publish_failfast_stops_witness :
    busFailFast.fail_on_error = true
      ∧ StopsAtFailure (busFailFast.publish).trace (busFailFast.publish).result :=
  ⟨rfl, publish_failfast_stops busFailFast rfl⟩

/-- C2 witness: the FIFO/subscription-order theorem applied to two messages
registered on topic `bar` of `busTwoListeners`, which carries two healthy
listeners. -/
theorem publish_fifo_per_topic_witness :
    busTwoListeners.events = []
      ∧ keyContains busTwoListeners.subscribers "bar" = true
      ∧ (∀ c ∈ ((regAll busTwoListeners "bar" [5, 7]).publish).trace,
          c.result = none)
      ∧ ((regAll busTwoListeners "bar" [5, 7]).publish).trace.map obs
          = canonicalMsgs "bar" 0 ([5, 7] : List Nat).length
              (keyGetD busTwoListeners.subscribers "bar" []).length :=
  ⟨rfl, by decide, by decide,
    publish_fifo_per_topic busTwoListeners "bar" [5, 7] rfl (by decide) (by decide)⟩

/-- C3 witness: the best-effort theorem applied to `busTwoTopics`, where the
first topic fails at its first event and the second topic is healthy. -/
theorem publish_besteffort_witness :
    busTwoTopics.fail_on_error = false
      ∧ (busTwoTopics.events.map Prod.fst).Nodup
      ∧ ((busTwoTopics.publish).result = none
          ∧ (busTwoTopics.publish).trace
              = perTopicTrace false busTwoTopics.subscribers busTwoTopics.events
          ∧ (∀ a c b, (busTwoTopics.publish).trace = a ++ c :: b →
              c.result ≠ none → ∀ c2 ∈ b, c2.topic ≠ c.topic)) :=
  ⟨rfl, by decide, publish_besteffort busTwoTopics rfl (by decide)⟩

/-- C4 witness: the amended theorem applied to `busTwoTopics`: the failing
`on_before` call on topic `alpha` is followed in the trace only by calls of
topic `beta` — the second `alpha` event was skipped — and `publish` returns
`Ok`. -/
theorem on_before_failure_truncates_topic_witness :
    busTwoTopics.fail_on_error = false
      ∧ (busTwoTopics.events.map Prod.fst).Nodup
      ∧ (busTwoTopics.publish).trace
          = [] ++ (⟨"alpha", .before, 0, 0, 1, some "before boom"⟩ : Call Nat)
              :: [⟨"beta", .before, 0, 0, 3, none⟩,
                  ⟨"beta", .event, 0, 0, 3, none⟩,
                  ⟨"beta", .after, 0, 0, 3, none⟩]
      ∧ (⟨"alpha", .before, 0, 0, 1, some "before boom"⟩ : Call Nat).stage = .before
      ∧ (⟨"alpha", .before, 0, 0, 1, some "before boom"⟩ : Call Nat).result ≠ none
      ∧ ((busTwoTopics.publish).result = none
          ∧ ∀ c2 ∈ [(⟨"beta", .before, 0, 0, 3, none⟩ : Call Nat),
                  ⟨"beta", .event, 0, 0, 3, none⟩,
                  ⟨"beta", .after, 0, 0, 3, none⟩],
              c2.topic
                ≠ (⟨"alpha", .before, 0, 0, 1, some "before boom"⟩ : Call Nat).topic) :=
  ⟨rfl, by decide, by decide, rfl, by decide,
    on_before_failure_truncates_topic busTwoTopics rfl (by decide) []
      ⟨"alpha", .before, 0, 0, 1, some "before boom"⟩
      [⟨"beta", .before, 0, 0, 3, none⟩, ⟨"beta", .event, 0, 0, 3, none⟩,
        ⟨"beta", .after, 0, 0, 3, none⟩]
      (by decide) rfl (by decide)⟩

/-- C6 witness: the round-trip theorem at tag universe `Nat` with every tag
interpreted as `Nat`: store `42` at tag `0`, read it back, miss at tag `1`,
overwrite with `7` at tag `1`, miss at tag `0`, read `7` at tag `1`. -/
theorem event_data_roundtrip_witness :
    ((1 : Nat) ≠ 0)
      ∧ ((@Event.new Nat (fun _ => Nat) 0 42).get_data 0 = some 42
          ∧ (@Event.new Nat (fun _ => Nat) 0 42).get_data 1 = none
          ∧ ((@Event.new Nat (fun _ => Nat) 0 42).set_data 1 7).get_data 0 = none
          ∧ ((@Event.new Nat (fun _ => Nat) 0 42).set_data 1 7).get_data 1 = some 7) :=
  ⟨by decide,
    @event_data_roundtrip Nat (fun _ => Nat) inferInstance 0 1 1 42 7
      (by decide) (by decide)⟩

end RustEventBus
